import Mathlib

/-!
Verification of the `callback` package of everydev1618/tron: the callback
registry that tracks pending single callbacks and batch callback groups,
dispatches per-channel notifications on completion, keeps bounded history,
and persists its state.

Go maps are embedded as association lists with first-occurrence lookup;
`alInsert` overwrites an existing key in place (as a Go map assignment
does) and `alErase` removes a key (as `delete` does). Wall-clock times
(`time.Now()`) are passed in as a `Nat` parameter `now`; outcomes of
network dispatch (VAPI call, email send) are supplied by a `DispatchEnv`
giving each channel's provider result (`none` = success, `some e` =
error text `e`), mirroring the `error` return of the Go clients.
-/

namespace Tron

/-- Association-list lookup: first entry with the given key (Go map read). -/
def alGet {α : Type} : List (String × α) → String → Option α
  | [], _ => none
  | p :: rest, k => if p.1 = k then some p.2 else alGet rest k

/-- Association-list update: replace the first entry with the key, or append
(Go map assignment `m[k] = v`). -/
def alInsert {α : Type} : List (String × α) → String → α → List (String × α)
  | [], k, v => [(k, v)]
  | p :: rest, k, v => if p.1 = k then (k, v) :: rest else p :: alInsert rest k v

/-- Association-list removal of a key (Go `delete(m, k)`). -/
def alErase {α : Type} (m : List (String × α)) (k : String) : List (String × α) :=
  m.filter (fun p => p.1 ≠ k)

@[simp] theorem alGet_nil {α : Type} {k : String} : alGet ([] : List (String × α)) k = none := rfl

theorem alGet_cons {α : Type} {p : String × α} {m : List (String × α)} {k : String} :
    alGet (p :: m) k = if p.1 = k then some p.2 else alGet m k := rfl

@[simp] theorem alGet_insert_self {α : Type} (m : List (String × α)) (k : String) (v : α) :
    alGet (alInsert m k v) k = some v := by
  induction m with
  | nil => simp [alInsert, alGet]
  | cons p rest ih =>
      by_cases h : p.1 = k
      · simp [alInsert, h, alGet]
      · simp [alInsert, h, alGet, ih]

theorem alGet_insert_ne {α : Type} (m : List (String × α)) (k k' : String) (v : α)
    (h : k' ≠ k) : alGet (alInsert m k v) k' = alGet m k' := by
  have hkk : ¬ (k = k') := fun h1 => h h1.symm
  induction m with
  | nil => simp [alInsert, alGet, hkk]
  | cons p rest ih =>
      by_cases hp : p.1 = k
      · subst hp
        simp [alInsert, alGet, hkk]
      · by_cases hp' : p.1 = k'
        · simp [alInsert, hp, alGet, hp', h, hkk]
        · simp [alInsert, hp, alGet, hp', ih]

theorem length_alInsert {α : Type} (m : List (String × α)) (k : String) (v : α) :
    (alInsert m k v).length =
      if (alGet m k).isSome then m.length else m.length + 1 := by
  induction m with
  | nil => simp [alInsert, alGet]
  | cons p rest ih =>
      by_cases hp : p.1 = k
      · simp [alInsert, hp, alGet]
      · simp [alInsert, hp, alGet, ih]
        split <;> simp

@[simp] theorem alGet_erase_self {α : Type} (m : List (String × α)) (k : String) :
    alGet (alErase m k) k = none := by
  induction m with
  | nil => simp [alErase, alGet]
  | cons p rest ih =>
      by_cases hp : p.1 = k
      · simpa [alErase, hp] using ih
      · simpa [alErase, alGet, hp] using ih

theorem alGet_erase_ne {α : Type} (m : List (String × α)) (k k' : String)
    (h : k' ≠ k) : alGet (alErase m k) k' = alGet m k' := by
  have hkk : ¬ (k = k') := fun h1 => h h1.symm
  induction m with
  | nil => simp [alErase]
  | cons p rest ih =>
      by_cases hp : p.1 = k
      · simpa [alErase, alGet, hp, hkk] using ih
      · by_cases hp' : p.1 = k'
        · simp [alErase, alGet, hp, hp', h, hkk]
        · simpa [alErase, alGet, hp, hp'] using ih

/-- Keys of an association list. -/
def alKeys {α : Type} (m : List (String × α)) : List String := m.map Prod.fst

theorem alGet_eq_none_of_not_mem_keys {α : Type} {m : List (String × α)} {k : String}
    (h : k ∉ alKeys m) : alGet m k = none := by
  induction m with
  | nil => rfl
  | cons p rest ih =>
      have h1 : ¬ (p.1 = k) := by
        intro he
        exact h (by simp [alKeys, he])
      have h2 : k ∉ alKeys rest := by
        intro hm
        exact h (by simp [alKeys] at hm ⊢; exact Or.inr hm)
      simp [alGet, h1, ih h2]

theorem mem_keys_of_alGet_isSome {α : Type} {m : List (String × α)} {k : String}
    (h : (alGet m k).isSome) : k ∈ alKeys m := by
  by_contra hk
  rw [alGet_eq_none_of_not_mem_keys hk] at h
  simp at h

/-- `Callback` struct: one requester's pending callback request.
Times are `Nat` (Unix nanoseconds); an unset `time.Time` is `0`. -/
structure Callback where
  id : String
  agentID : String
  agentName : String
  taskSummary : String
  projectName : String
  method : String
  customerPhone : String
  customerEmail : String
  customerName : String
  personaName : String
  requestedAt : Nat
  completedAt : Nat
  status : String
  error : String
  groupID : String
deriving DecidableEq, Repr

/-- `CompletionInfo` struct: the result of a completed agent. -/
structure CompletionInfo where
  agentID : String
  agentName : String
  result : String
  projectName : String
  error : String
deriving DecidableEq, Repr

/-- `CallbackGroup` struct: a batch of callbacks that complete together. -/
structure CallbackGroup where
  id : String
  agentIDs : List String
  results : List (String × CompletionInfo)
  method : String
  customerPhone : String
  customerEmail : String
  customerName : String
  personaName : String
  requestedAt : Nat
  completedAt : Nat
  status : String
  error : String
deriving DecidableEq, Repr

/-- `AgentInfo` struct: info for batch registration. -/
structure AgentInfo where
  id : String
  name : String
  taskSummary : String
  projectName : String
deriving DecidableEq, Repr

/-- The mutable state of a `Registry`: pending callbacks keyed by agent id,
pending groups keyed by group id, and the two bounded history slices. -/
structure Registry where
  callbacks : List (String × Callback)
  groups : List (String × CallbackGroup)
  history : List Callback
  groupHistory : List CallbackGroup
deriving DecidableEq, Repr

/-- The registry constructed by `NewRegistry` before `load` runs. -/
def emptyRegistry : Registry :=
  { callbacks := [], groups := [], history := [], groupHistory := [] }

/-- Immutable client configuration: whether `vapiClient` is non-nil and
`IsConfigured`, and likewise for `emailClient`. -/
structure Config where
  vapiConfigured : Bool
  emailConfigured : Bool
deriving DecidableEq, Repr

/-- Outcomes of the network side of dispatch: the `error` result of
`vapiClient.Call`, `emailClient.SendTaskComplete` and
`emailClient.SendBatchComplete` (`none` = success). -/
structure DispatchEnv where
  callResult : Option String
  emailResult : Option String
  batchEmailResult : Option String
deriving DecidableEq, Repr

deriving instance DecidableEq for Except

/-- Observable side effects of a registry operation. -/
inductive Event where
  | callDispatch (agentID : String)
  | emailDispatch (agentID : String)
  | batchCallDispatch (groupID : String)
  | batchEmailDispatch (groupID : String)
  | groupDispatch (groupID : String)
  | persist
deriving DecidableEq, Repr

/-- `Registry.executeCall`: fails when the VAPI client is missing or
unconfigured, otherwise returns the provider outcome. -/
def executeCall (cfg : Config) (env : DispatchEnv) : Option String :=
  if cfg.vapiConfigured = false then some "VAPI client not configured" else env.callResult

/-- `Registry.executeEmail`: fails when the email client is missing or
unconfigured, otherwise returns the provider outcome. -/
def executeEmail (cfg : Config) (env : DispatchEnv) : Option String :=
  if cfg.emailConfigured = false then some "email client not configured" else env.emailResult

/-- `Registry.executeBatchCall`: unconditionally unimplemented. -/
def executeBatchCall : Option String :=
  some "batch calls not yet implemented"

/-- `Registry.executeBatchEmail`: fails when the email client is missing or
unconfigured, otherwise returns the provider outcome. -/
def executeBatchEmail (cfg : Config) (env : DispatchEnv) : Option String :=
  if cfg.emailConfigured = false then some "email client not configured" else env.batchEmailResult

/-- The `method == "both"` error composition in `executeCallback` /
`executeGroupCallback`: keep the call error, then join or adopt the email
error. -/
def combineBoth (callErr emailErr : Option String) : Option String :=
  match callErr, emailErr with
  | some c, some e => some ("call: " ++ c ++ "; email: " ++ e)
  | some c, none => some c
  | none, some e => some e
  | none, none => none

/-- The `switch cb.Method` of `executeCallback`: the composed dispatch
error for a single callback. -/
def singleExecErr (cfg : Config) (env : DispatchEnv) (method : String) : Option String :=
  if method = "call" then executeCall cfg env
  else if method = "email" then executeEmail cfg env
  else if method = "both" then combineBoth (executeCall cfg env) (executeEmail cfg env)
  else none

/-- The terminal record `executeCallback` writes into history: completion
time set, status `failed` with the error recorded, or `completed`. -/
def retiredSingle (cfg : Config) (env : DispatchEnv) (now : Nat) (cb : Callback) : Callback :=
  { cb with completedAt := now,
            status := if (singleExecErr cfg env cb.method).isSome then "failed" else "completed",
            error := (singleExecErr cfg env cb.method).getD cb.error }

/-- `Registry.executeCallback`: run the method's channels, set terminal
status/error/completed-at, move the entry from the pending map into
history, trimming one oldest entry when the history exceeds 100. -/
def executeCallback (cfg : Config) (env : DispatchEnv) (now : Nat)
    (r : Registry) (cb : Callback) (info : CompletionInfo) : Registry × List Event :=
  let evs : List Event :=
    if cb.method = "call" then [.callDispatch cb.agentID]
    else if cb.method = "email" then [.emailDispatch cb.agentID]
    else if cb.method = "both" then [.callDispatch cb.agentID, .emailDispatch cb.agentID]
    else []
  let h1 := r.history ++ [retiredSingle cfg env now cb]
  let h2 := if h1.length > 100 then h1.drop 1 else h1
  ({ r with callbacks := alErase r.callbacks cb.agentID, history := h2 }, evs)

/-- The member-cleanup loop of `executeGroupCallback`: each member still in
the pending map gets the group's final status and completion time, is
appended to history and removed from pending. -/
def retireMembers (now : Nat) (st : String) :
    List String → List (String × Callback) → List Callback →
      List (String × Callback) × List Callback
  | [], cbs, hist => (cbs, hist)
  | agentID :: rest, cbs, hist =>
    match alGet cbs agentID with
    | some cb => retireMembers now st rest (alErase cbs agentID)
        (hist ++ [{ cb with status := st, completedAt := now }])
    | none => retireMembers now st rest cbs hist

/-- The `switch group.Method` of `executeGroupCallback`: the composed batch
dispatch error. -/
def groupExecErr (cfg : Config) (env : DispatchEnv) (method : String) : Option String :=
  if method = "call" then executeBatchCall
  else if method = "email" then executeBatchEmail cfg env
  else if method = "both" then combineBoth executeBatchCall (executeBatchEmail cfg env)
  else none

/-- The terminal record `executeGroupCallback` writes into group history. -/
def retiredGroup (cfg : Config) (env : DispatchEnv) (now : Nat)
    (group : CallbackGroup) : CallbackGroup :=
  { group with completedAt := now,
               status := if (groupExecErr cfg env group.method).isSome then "failed"
                         else "completed",
               error := (groupExecErr cfg env group.method).getD group.error }

/-- `Registry.executeGroupCallback`: run the method's batch channels, set the
group's terminal status, retire every member callback to history (keeping
the newest 100), and move the group itself to group history (keeping 50). -/
def executeGroupCallback (cfg : Config) (env : DispatchEnv) (now : Nat)
    (r : Registry) (group : CallbackGroup) : Registry × List Event :=
  let evs : List Event :=
    Event.groupDispatch group.id ::
      (if group.method = "call" then [.batchCallDispatch group.id]
       else if group.method = "email" then [.batchEmailDispatch group.id]
       else if group.method = "both" then
         [.batchCallDispatch group.id, .batchEmailDispatch group.id]
       else [])
  let p := retireMembers now (retiredGroup cfg env now group).status group.agentIDs
    r.callbacks r.history
  let hist2 := if p.2.length > 100 then p.2.drop (p.2.length - 100) else p.2
  let gh1 := r.groupHistory ++ [retiredGroup cfg env now group]
  let gh2 := if gh1.length > 50 then gh1.drop 1 else gh1
  ({ r with callbacks := p.1, groups := alErase r.groups group.id,
            history := hist2, groupHistory := gh2 }, evs)

/-- The in-place `group.Results[info.AgentID] = info` of `OnAgentComplete`. -/
def recordResult (group : CallbackGroup) (info : CompletionInfo) : CallbackGroup :=
  { group with results := alInsert group.results info.agentID info }

/-- `Registry.OnAgentComplete`: resolve the pending callback for the agent;
for a grouped callback record the result and fire the group exactly when
its results map reaches the member count; for a single callback dispatch
directly; persist after any mutation. -/
def OnAgentComplete (cfg : Config) (env : DispatchEnv) (now : Nat)
    (r : Registry) (info : CompletionInfo) : Registry × List Event :=
  match alGet r.callbacks info.agentID with
  | none => (r, [])
  | some cb =>
    if cb.groupID ≠ "" then
      match alGet r.groups cb.groupID with
      | none => (r, [])
      | some group =>
        let group' := recordResult group info
        let r1 := { r with groups := alInsert r.groups cb.groupID group' }
        let p :=
          if group'.results.length = group'.agentIDs.length then
            executeGroupCallback cfg env now r1 group'
          else (r1, [])
        (p.1, p.2 ++ [Event.persist])
    else
      let p := executeCallback cfg env now r cb info
      (p.1, p.2 ++ [Event.persist])

/-- `Registry.Register`: validate the chosen method's contact field and
client configuration, then store a fresh pending callback keyed by the
agent id. On a validation failure the registry is returned unchanged. -/
def Register (cfg : Config) (now : Nat) (personaName : String) (r : Registry)
    (agentID agentName taskSummary projectName method phone emailAddr customerName : String) :
    Registry × Except String Callback :=
  if (method = "call" ∨ method = "both") ∧ phone = "" then
    (r, .error "phone number required for call callback")
  else if (method = "call" ∨ method = "both") ∧ ¬ cfg.vapiConfigured then
    (r, .error "VAPI not configured for call callbacks")
  else if (method = "email" ∨ method = "both") ∧ emailAddr = "" then
    (r, .error "email address required for email callback")
  else if (method = "email" ∨ method = "both") ∧ ¬ cfg.emailConfigured then
    (r, .error "email not configured for email callbacks")
  else
    let cb : Callback :=
      { id := "cb-" ++ agentID ++ "-" ++ toString now
        agentID := agentID, agentName := agentName, taskSummary := taskSummary
        projectName := projectName, method := method, customerPhone := phone
        customerEmail := emailAddr, customerName := customerName
        personaName := personaName, requestedAt := now, completedAt := 0
        status := "pending", error := "", groupID := "" }
    ({ r with callbacks := alInsert r.callbacks agentID cb }, .ok cb)

/-- `Registry.RegisterBatch`: validate only that the method's contact field
is non-empty (the source, unlike `Register`, performs no client
configuration check), then create one pending callback per member sharing
a fresh group id plus one pending group with an empty results map. -/
def RegisterBatch (cfg : Config) (now : Nat) (personaName : String) (r : Registry)
    (agents : List AgentInfo) (method phone emailAddr customerName : String) :
    Registry × Except String CallbackGroup :=
  if (method = "call" ∨ method = "both") ∧ phone = "" then
    (r, .error "phone number required for call callback")
  else if (method = "email" ∨ method = "both") ∧ emailAddr = "" then
    (r, .error "email address required for email callback")
  else
    let groupID := "grp-" ++ toString now
    let agentIDs := agents.map (·.id)
    let cbs := agents.foldl (fun m agent =>
      alInsert m agent.id
        { id := "cb-" ++ agent.id ++ "-" ++ toString now, agentID := agent.id
          agentName := agent.name, taskSummary := agent.taskSummary
          projectName := agent.projectName, method := method, customerPhone := phone
          customerEmail := emailAddr, customerName := customerName
          personaName := personaName, requestedAt := now, completedAt := 0
          status := "pending", error := "", groupID := groupID }) r.callbacks
    let group : CallbackGroup :=
      { id := groupID, agentIDs := agentIDs, results := [], method := method
        customerPhone := phone, customerEmail := emailAddr, customerName := customerName
        personaName := personaName, requestedAt := now, completedAt := 0
        status := "pending", error := "" }
    ({ r with callbacks := cbs, groups := alInsert r.groups groupID group }, .ok group)

/-- `Registry.Cancel`: remove a pending callback if present. -/
def Cancel (r : Registry) (agentID : String) : Registry × Bool :=
  if (alGet r.callbacks agentID).isSome then
    ({ r with callbacks := alErase r.callbacks agentID }, true)
  else (r, false)

/-- `Registry.cleanupOrphaned`: with a validator installed, mark every
pending callback whose agent the validator rejects as orphaned, append it
to history (the source performs no capacity trim here) and drop it from
pending. Without a validator, do nothing. -/
def cleanupOrphaned (agentValidator : Option (String → Bool)) (r : Registry) :
    Registry × List Event :=
  match agentValidator with
  | none => (r, [])
  | some validator =>
    let orphaned := r.callbacks.filter (fun p => !(validator p.1))
    ({ r with
        callbacks := r.callbacks.filter (fun p => validator p.1)
        history := r.history ++ orphaned.map (fun p => { p.2 with status := "orphaned" }) },
     [Event.persist])

/-- Feed a list of completion events through `OnAgentComplete` in order,
collecting the emitted events. -/
def processAll (cfg : Config) (env : DispatchEnv) (now : Nat) :
    Registry → List CompletionInfo → Registry × List Event
  | r, [] => (r, [])
  | r, i :: rest =>
    let p := OnAgentComplete cfg env now r i
    let q := processAll cfg env now p.1 rest
    (q.1, p.2 ++ q.2)

/-! ### Generic list helpers -/

theorem getLast?_trimFront {α : Type} (l : List α) (x : α) (n : Nat) (h : n ≤ l.length) :
    ((l ++ [x]).drop n).getLast? = some x := by
  rw [List.drop_append_of_le_length h]
  exact List.getLast?_concat _

/-! ### Concrete fixtures used by witnesses and counterexamples -/

/-- Configuration with both clients configured. -/
def cfgBoth : Config := { vapiConfigured := true, emailConfigured := true }

/-- Environment in which every provider request succeeds. -/
def envOK : DispatchEnv := { callResult := none, emailResult := none, batchEmailResult := none }

/-- A pending callback as `Register`/`RegisterBatch` would create it. -/
def mkPending (a gid method : String) : Callback :=
  { id := "cb-" ++ a ++ "-1", agentID := a, agentName := "agent " ++ a
    taskSummary := "task", projectName := "proj", method := method
    customerPhone := "5551234567", customerEmail := "x@y.com", customerName := "Cust"
    personaName := "Tony", requestedAt := 1, completedAt := 0
    status := "pending", error := "", groupID := gid }

/-- A pending group as `RegisterBatch` would create it. -/
def mkGroup (gid : String) (ids : List String) (method : String) : CallbackGroup :=
  { id := gid, agentIDs := ids, results := [], method := method
    customerPhone := "5551234567", customerEmail := "x@y.com", customerName := "Cust"
    personaName := "Tony", requestedAt := 1, completedAt := 0
    status := "pending", error := "" }

/-! ### C9: completion for a grouped callback whose group is missing -/

/-- C9: if `OnAgentComplete` finds a pending callback whose non-empty group
id is not in the groups map, it returns immediately: no completion is
recorded, nothing is dispatched, nothing is persisted, and the whole
registry state is unchanged (so the callback stays pending). -/
theorem onAgentComplete_missing_group_is_noop
    (cfg : Config) (env : DispatchEnv) (now : Nat) (r : Registry) (info : CompletionInfo)
    (cb : Callback) (hcb : alGet r.callbacks info.agentID = some cb)
    (hg : cb.groupID ≠ "") (hgrp : alGet r.groups cb.groupID = none) :
    OnAgentComplete cfg env now r info = (r, []) := by
  simp [OnAgentComplete, hcb, hg, hgrp]

/-- A registry holding a pending callback that points at group `"g9"`,
while no group `"g9"` exists. -/
def rMissingGroup : Registry :=
  { callbacks := [("a1", mkPending "a1" "g9" "email")], groups := []
    history := [], groupHistory := [] }

/-- A completion event for agent `"a1"`. -/
def infoFor (a : String) : CompletionInfo :=
  { agentID := a, agentName := "agent " ++ a, result := "done"
    projectName := "proj", error := "" }

theorem onAgentComplete_missing_group_is_noop_witness :
    OnAgentComplete cfgBoth envOK 7 rMissingGroup (infoFor "a1") = (rMissingGroup, []) :=
  onAgentComplete_missing_group_is_noop cfgBoth envOK 7 rMissingGroup (infoFor "a1")
    (mkPending "a1" "g9" "email") (by decide) (by decide) (by decide)

/-! ### C6: method `both` dispatches both channels independently -/

/-- C6: for a single callback with method `both`, dispatch attempts the call
channel and the email channel independently (both events always fire, so a
successful channel is never rolled back); the terminal record is `failed`
with the two error texts joined when both channels fail, `failed` with the
single error when exactly one fails, and `completed` when neither fails;
the entry leaves the pending map and enters history. -/
theorem executeCallback_both_semantics
    (cfg : Config) (env : DispatchEnv) (now : Nat) (r : Registry)
    (cb : Callback) (info : CompletionInfo) (hm : cb.method = "both") :
    (executeCallback cfg env now r cb info).2 =
      [Event.callDispatch cb.agentID, Event.emailDispatch cb.agentID] ∧
    (executeCallback cfg env now r cb info).1.history.getLast? =
      some (retiredSingle cfg env now cb) ∧
    alGet (executeCallback cfg env now r cb info).1.callbacks cb.agentID = none ∧
    (∀ c e, executeCall cfg env = some c → executeEmail cfg env = some e →
      (retiredSingle cfg env now cb).status = "failed" ∧
      (retiredSingle cfg env now cb).error = "call: " ++ c ++ "; email: " ++ e) ∧
    (∀ c, executeCall cfg env = some c → executeEmail cfg env = none →
      (retiredSingle cfg env now cb).status = "failed" ∧
      (retiredSingle cfg env now cb).error = c) ∧
    (∀ e, executeCall cfg env = none → executeEmail cfg env = some e →
      (retiredSingle cfg env now cb).status = "failed" ∧
      (retiredSingle cfg env now cb).error = e) ∧
    (executeCall cfg env = none → executeEmail cfg env = none →
      (retiredSingle cfg env now cb).status = "completed") := by
  refine ⟨?_, ?_, ?_, ?_, ?_, ?_, ?_⟩
  · simp [executeCallback, hm]
  · show (if (r.history ++ [retiredSingle cfg env now cb]).length > 100
        then (r.history ++ [retiredSingle cfg env now cb]).drop 1
        else r.history ++ [retiredSingle cfg env now cb]).getLast? =
        some (retiredSingle cfg env now cb)
    split
    · next hlen =>
        refine getLast?_trimFront _ _ _ ?_
        simp at hlen
        omega
    · exact List.getLast?_concat _
  · simp [executeCallback]
  · intro c e hc he
    simp [retiredSingle, singleExecErr, hm, hc, he, combineBoth]
  · intro c hc he
    simp [retiredSingle, singleExecErr, hm, hc, he, combineBoth]
  · intro e hc he
    simp [retiredSingle, singleExecErr, hm, hc, he, combineBoth]
  · intro hc he
    simp [retiredSingle, singleExecErr, hm, hc, he, combineBoth]

/-- Environment in which both the call and the email provider fail. -/
def envBothFail : DispatchEnv :=
  { callResult := some "boom", emailResult := some "crash", batchEmailResult := none }

/-- A registry holding one pending non-grouped callback with method `both`. -/
def rBothSingle : Registry :=
  { callbacks := [("a2", mkPending "a2" "" "both")], groups := []
    history := [], groupHistory := [] }

theorem executeCallback_both_semantics_witness :
    (executeCallback cfgBoth envBothFail 9 rBothSingle (mkPending "a2" "" "both")
        (infoFor "a2")).2 =
      [Event.callDispatch "a2", Event.emailDispatch "a2"] ∧
    (retiredSingle cfgBoth envBothFail 9 (mkPending "a2" "" "both")).status = "failed" ∧
    (retiredSingle cfgBoth envBothFail 9 (mkPending "a2" "" "both")).error =
      "call: boom; email: crash" := by
  have h := executeCallback_both_semantics cfgBoth envBothFail 9 rBothSingle
    (mkPending "a2" "" "both") (infoFor "a2") (by decide)
  have h2 := h.2.2.2.1 "boom" "crash" (by decide) (by decide)
  exact ⟨h.1, h2.1, h2.2⟩

/-! ### C3: history capacity -/

/-- A registry whose callback history is exactly at its 100-entry capacity,
with one pending callback whose agent no longer exists. -/
def rHistFull : Registry :=
  { callbacks := [("z", mkPending "z" "" "email")], groups := []
    history := List.replicate 100 (mkPending "h" "" "email"), groupHistory := [] }

/-- C3 (violated by the code): `cleanupOrphaned` appends every orphaned
callback to history without any capacity trim, so one pass over a registry
whose history already holds 100 entries leaves 101 entries — contradicting
the 100-entry bound the history field is documented to keep. -/
theorem cleanupOrphaned_exceeds_history_capacity :
    (cleanupOrphaned (some (fun _ => false)) rHistFull).1.history.length = 101 ∧
    ¬ (cleanupOrphaned (some (fun _ => false)) rHistFull).1.history.length ≤ 100 := by
  constructor
  · simp [cleanupOrphaned, rHistFull]
  · simp [cleanupOrphaned, rHistFull]

/-! ### C4: RegisterBatch skips the configuration half of validation -/

/-- Configuration with neither client configured. -/
def cfgNone : Config := { vapiConfigured := false, emailConfigured := false }

/-- C4 (violated by the code): with no call client configured, `Register`
for method `call` fails with the configuration error and leaves the state
untouched, but `RegisterBatch` with the same method succeeds and creates a
pending callback and a pending group — it never performs the client
configuration check that `Register` performs. -/
theorem registerBatch_skips_configuration_validation :
    (Register cfgNone 1 "Tony" emptyRegistry
        "a4" "agent" "task" "proj" "call" "5551234567" "" "Cust").2 =
      Except.error "VAPI not configured for call callbacks" ∧
    (Register cfgNone 1 "Tony" emptyRegistry
        "a4" "agent" "task" "proj" "call" "5551234567" "" "Cust").1 = emptyRegistry ∧
    (RegisterBatch cfgNone 1 "Tony" emptyRegistry
        [⟨"a4", "agent", "task", "proj"⟩] "call" "5551234567" "" "Cust").2.isOk = true ∧
    (RegisterBatch cfgNone 1 "Tony" emptyRegistry
        [⟨"a4", "agent", "task", "proj"⟩] "call" "5551234567" "" "Cust").1.callbacks.length = 1 ∧
    (RegisterBatch cfgNone 1 "Tony" emptyRegistry
        [⟨"a4", "agent", "task", "proj"⟩] "call" "5551234567" "" "Cust").1.groups.length = 1 := by
  decide

/-! ### C5: Register validation, no mutation on error, overwrite on success -/

theorem alGet_isSome_of_mem_alKeys {α : Type} {m : List (String × α)} {k : String}
    (h : k ∈ alKeys m) : (alGet m k).isSome := by
  induction m with
  | nil => simp [alKeys] at h
  | cons p rest ih =>
      by_cases hp : p.1 = k
      · simp [alGet, hp]
      · have h' : k ∈ alKeys rest := by
          simp only [alKeys, List.map_cons, List.mem_cons] at h
          rcases h with h1 | h1
          · exact absurd h1.symm hp
          · exact h1
        simpa [alGet, hp] using ih h'

theorem alKeys_alInsert {α : Type} (m : List (String × α)) (k : String) (v : α) :
    alKeys (alInsert m k v) =
      if (alGet m k).isSome then alKeys m else alKeys m ++ [k] := by
  induction m with
  | nil => simp [alInsert, alKeys, alGet]
  | cons p rest ih =>
      by_cases hp : p.1 = k
      · simp [alInsert, hp, alKeys, alGet]
      · simp only [alInsert, hp, if_false, alKeys, List.map_cons, alGet]
        rw [show alKeys (alInsert rest k v) = List.map Prod.fst (alInsert rest k v) from rfl] at ih
        rw [ih]
        split <;> simp [alKeys]

theorem nodup_alKeys_alInsert {α : Type} {m : List (String × α)} {k : String} {v : α}
    (h : (alKeys m).Nodup) : (alKeys (alInsert m k v)).Nodup := by
  rw [alKeys_alInsert]
  split
  · exact h
  · next hns =>
      rw [List.nodup_append]
      refine ⟨h, List.nodup_singleton _, ?_⟩
      intro x hx hk
      simp at hk
      subst hk
      exact hns (alGet_isSome_of_mem_alKeys hx)

/-- C5: `Register` rejects method `call`/`both` with an empty phone or an
unconfigured call client and method `email`/`both` with an empty email or
an unconfigured email client, in every such case returning the registry
unchanged; on success it stores exactly the returned pending callback
keyed by the agent id, overwriting only that key and preserving key
uniqueness (at most one pending callback per agent id). -/
theorem register_validates_and_stores
    (cfg : Config) (now : Nat) (persona : String) (r : Registry)
    (agentID agentName taskSummary projectName method phone emailAddr customerName : String) :
    (((method = "call" ∨ method = "both") ∧ (phone = "" ∨ cfg.vapiConfigured = false)) →
      (Register cfg now persona r agentID agentName taskSummary projectName
        method phone emailAddr customerName).1 = r ∧
      ∃ e, (Register cfg now persona r agentID agentName taskSummary projectName
        method phone emailAddr customerName).2 = Except.error e) ∧
    (((method = "email" ∨ method = "both") ∧ (emailAddr = "" ∨ cfg.emailConfigured = false)) →
      (Register cfg now persona r agentID agentName taskSummary projectName
        method phone emailAddr customerName).1 = r ∧
      ∃ e, (Register cfg now persona r agentID agentName taskSummary projectName
        method phone emailAddr customerName).2 = Except.error e) ∧
    (∀ cb, (Register cfg now persona r agentID agentName taskSummary projectName
        method phone emailAddr customerName).2 = Except.ok cb →
      (Register cfg now persona r agentID agentName taskSummary projectName
        method phone emailAddr customerName).1.callbacks = alInsert r.callbacks agentID cb ∧
      cb.status = "pending" ∧ cb.agentID = agentID ∧ cb.groupID = "" ∧
      alGet (Register cfg now persona r agentID agentName taskSummary projectName
        method phone emailAddr customerName).1.callbacks agentID = some cb ∧
      (∀ b, b ≠ agentID →
        alGet (Register cfg now persona r agentID agentName taskSummary projectName
          method phone emailAddr customerName).1.callbacks b = alGet r.callbacks b) ∧
      ((alKeys r.callbacks).Nodup →
        (alKeys (Register cfg now persona r agentID agentName taskSummary projectName
          method phone emailAddr customerName).1.callbacks).Nodup)) := by
  unfold Register
  split_ifs with h1 h2 h3 h4
  case pos =>
    exact ⟨fun _ => ⟨rfl, _, rfl⟩, fun _ => ⟨rfl, _, rfl⟩, fun cb hcb => by simp at hcb⟩
  case pos =>
    exact ⟨fun _ => ⟨rfl, _, rfl⟩, fun _ => ⟨rfl, _, rfl⟩, fun cb hcb => by simp at hcb⟩
  case pos =>
    exact ⟨fun _ => ⟨rfl, _, rfl⟩, fun _ => ⟨rfl, _, rfl⟩, fun cb hcb => by simp at hcb⟩
  case pos =>
    exact ⟨fun _ => ⟨rfl, _, rfl⟩, fun _ => ⟨rfl, _, rfl⟩, fun cb hcb => by simp at hcb⟩
  case neg =>
    refine ⟨?_, ?_, ?_⟩
    · rintro ⟨hm, hor⟩
      rcases hor with hp | hv
      · exact absurd ⟨hm, hp⟩ h1
      · exact absurd ⟨hm, by simp [hv]⟩ h2
    · rintro ⟨hm, hor⟩
      rcases hor with hp | hv
      · exact absurd ⟨hm, hp⟩ h3
      · exact absurd ⟨hm, by simp [hv]⟩ h4
    · intro cb hcb
      simp only [Except.ok.injEq] at hcb
      subst hcb
      refine ⟨rfl, rfl, rfl, rfl, alGet_insert_self _ _ _, ?_, ?_⟩
      · intro b hb
        exact alGet_insert_ne _ _ _ _ hb
      · intro hnd
        exact nodup_alKeys_alInsert hnd

/-- The callback `Register` creates for agent `"a6"` in the witness below. -/
def regCb6 : Callback :=
  { id := "cb-a6-1", agentID := "a6", agentName := "agent", taskSummary := "task"
    projectName := "proj", method := "email", customerPhone := ""
    customerEmail := "x@y.com", customerName := "Cust", personaName := "Tony"
    requestedAt := 1, completedAt := 0, status := "pending", error := "", groupID := "" }

theorem register_validates_and_stores_witness :
    ((Register cfgBoth 1 "Tony" emptyRegistry
        "a5" "agent" "task" "proj" "call" "" "" "Cust").1 = emptyRegistry ∧
      ∃ e, (Register cfgBoth 1 "Tony" emptyRegistry
        "a5" "agent" "task" "proj" "call" "" "" "Cust").2 = Except.error e) ∧
    alGet (Register cfgBoth 1 "Tony" emptyRegistry
        "a6" "agent" "task" "proj" "email" "" "x@y.com" "Cust").1.callbacks "a6" =
      some regCb6 := by
  refine ⟨(register_validates_and_stores cfgBoth 1 "Tony" emptyRegistry
    "a5" "agent" "task" "proj" "call" "" "" "Cust").1 ⟨Or.inl rfl, Or.inl rfl⟩, ?_⟩
  exact ((register_validates_and_stores cfgBoth 1 "Tony" emptyRegistry
    "a6" "agent" "task" "proj" "email" "" "x@y.com" "Cust").2.2 regCb6
    (by decide)).2.2.2.2.1

/-! ### C2: one completion is terminal, a second is a no-op -/

theorem alGet_mem {α : Type} {m : List (String × α)} {k : String} {v : α}
    (h : alGet m k = some v) : (k, v) ∈ m := by
  induction m with
  | nil => simp [alGet] at h
  | cons p rest ih =>
      by_cases hp : p.1 = k
      · simp [alGet, hp] at h
        subst h
        subst hp
        simp
      · simp [alGet, hp] at h
        exact List.mem_cons_of_mem _ (ih h)

theorem alGet_filter_rejected {α : Type} (m : List (String × α)) (v : String → Bool)
    (k : String) (hv : v k = false) :
    alGet (m.filter (fun p => v p.1)) k = none := by
  induction m with
  | nil => simp [alGet]
  | cons p rest ih =>
      by_cases hp : v p.1
      · by_cases hk : p.1 = k
        · rw [hk] at hp
          rw [hv] at hp
          simp at hp
        · simpa [List.filter, hp, alGet, hk] using ih
      · simpa [List.filter, hp] using ih

/-- `OnAgentComplete` with no registered callback for the agent returns
immediately with no state change and no events. -/
theorem onAgentComplete_no_callback (cfg : Config) (env : DispatchEnv) (now : Nat)
    (r : Registry) (info : CompletionInfo)
    (h : alGet r.callbacks info.agentID = none) :
    OnAgentComplete cfg env now r info = (r, []) := by
  simp [OnAgentComplete, h]

/-- A registry holding one pending non-grouped callback for agent `"c1"`. -/
def rSingleEmail : Registry :=
  { callbacks := [("c1", mkPending "c1" "" "email")], groups := []
    history := [], groupHistory := [] }

/-- A registry holding a pending 2-member group and its member callbacks. -/
def rGroupTwo : Registry :=
  { callbacks := [("a", mkPending "a" "g1" "email"), ("b", mkPending "b" "g1" "email")]
    groups := [("g1", mkGroup "g1" ["a", "b"] "email")]
    history := [], groupHistory := [] }

/-- C2 counterexample: agent `"a"` has a Pending callback (a member of a
2-member group); after exactly one `OnAgentComplete` for `"a"` that
callback is still in the pending map with status `"pending"` — neither
removed nor given a terminal status, contradicting the claim as stated. -/
theorem grouped_callback_still_pending_after_one_completion :
    alGet (OnAgentComplete cfgBoth envOK 5 rGroupTwo (infoFor "a")).1.callbacks "a" =
      some (mkPending "a" "g1" "email") ∧
    (mkPending "a" "g1" "email").status = "pending" := by
  exact ⟨by decide, rfl⟩

/-- C2 (amended): for an agent id whose Pending callback has an empty group
id, after exactly one `OnAgentComplete` the callback's status is exactly
one of completed/failed/orphaned (actually completed or failed), the entry
is removed from the pending map, and a second `OnAgentComplete` for the
same agent id is a no-op; and for any Pending callback — grouped or not —
one `cleanupOrphaned` pass whose predicate rejects the agent id orphans
and removes it, after which a second completion event is likewise a
no-op. -/
theorem single_completion_is_terminal_and_second_is_noop
    (cfg : Config) (env : DispatchEnv) (now : Nat) (r : Registry)
    (info : CompletionInfo) (cb : Callback)
    (hcb : alGet r.callbacks info.agentID = some cb)
    (hid : cb.agentID = info.agentID)
    (hpend : cb.status = "pending") :
    (cb.groupID = "" →
      alGet (OnAgentComplete cfg env now r info).1.callbacks info.agentID = none ∧
      (OnAgentComplete cfg env now r info).1.history.getLast? =
        some (retiredSingle cfg env now cb) ∧
      ((retiredSingle cfg env now cb).status = "completed" ∨
        (retiredSingle cfg env now cb).status = "failed" ∨
        (retiredSingle cfg env now cb).status = "orphaned") ∧
      (∀ (env2 : DispatchEnv) (now2 : Nat) (info2 : CompletionInfo),
        info2.agentID = info.agentID →
        OnAgentComplete cfg env2 now2 (OnAgentComplete cfg env now r info).1 info2 =
          ((OnAgentComplete cfg env now r info).1, []))) ∧
    (∀ v : String → Bool, v info.agentID = false →
      alGet (cleanupOrphaned (some v) r).1.callbacks info.agentID = none ∧
      { cb with status := "orphaned" } ∈ (cleanupOrphaned (some v) r).1.history ∧
      (∀ (env2 : DispatchEnv) (now2 : Nat) (info2 : CompletionInfo),
        info2.agentID = info.agentID →
        OnAgentComplete cfg env2 now2 (cleanupOrphaned (some v) r).1 info2 =
          ((cleanupOrphaned (some v) r).1, []))) := by
  constructor
  · intro hg
    have hstep : (OnAgentComplete cfg env now r info).1 =
        { r with callbacks := alErase r.callbacks cb.agentID
                 history :=
                   if (r.history ++ [retiredSingle cfg env now cb]).length > 100
                   then (r.history ++ [retiredSingle cfg env now cb]).drop 1
                   else r.history ++ [retiredSingle cfg env now cb] } := by
      simp [OnAgentComplete, hcb, hg, executeCallback]
    have hgone : alGet (OnAgentComplete cfg env now r info).1.callbacks info.agentID =
        none := by
      rw [hstep]
      rw [← hid]
      exact alGet_erase_self _ _
    refine ⟨hgone, ?_, ?_, ?_⟩
    · rw [hstep]
      show (if (r.history ++ [retiredSingle cfg env now cb]).length > 100
          then (r.history ++ [retiredSingle cfg env now cb]).drop 1
          else r.history ++ [retiredSingle cfg env now cb]).getLast? =
        some (retiredSingle cfg env now cb)
      split
      · next hlen =>
          refine getLast?_trimFront _ _ _ ?_
          simp at hlen
          omega
      · exact List.getLast?_concat _
    · by_cases h : (singleExecErr cfg env cb.method).isSome
      · exact Or.inr (Or.inl (by simp [retiredSingle, h]))
      · exact Or.inl (by simp [retiredSingle, h])
    · intro env2 now2 info2 heq
      refine onAgentComplete_no_callback _ _ _ _ _ ?_
      rw [heq]
      exact hgone
  · intro v hv
    have hmem : (info.agentID, cb) ∈ r.callbacks := alGet_mem hcb
    have hnone : alGet (cleanupOrphaned (some v) r).1.callbacks info.agentID = none := by
      simpa [cleanupOrphaned] using alGet_filter_rejected r.callbacks v info.agentID hv
    refine ⟨hnone, ?_, ?_⟩
    · show { cb with status := "orphaned" } ∈
        r.history ++ (r.callbacks.filter (fun p => !(v p.1))).map
          (fun p => { p.2 with status := "orphaned" })
      refine List.mem_append_right _ ?_
      refine List.mem_map.2 ⟨(info.agentID, cb), ?_, rfl⟩
      refine List.mem_filter.2 ⟨hmem, ?_⟩
      simp [hv]
    · intro env2 now2 info2 heq
      refine onAgentComplete_no_callback _ _ _ _ _ ?_
      rw [heq]
      exact hnone

theorem single_completion_is_terminal_and_second_is_noop_witness :
    alGet (OnAgentComplete cfgBoth envOK 5 rSingleEmail (infoFor "c1")).1.callbacks "c1" =
      none ∧
    OnAgentComplete cfgBoth envOK 6
        (OnAgentComplete cfgBoth envOK 5 rSingleEmail (infoFor "c1")).1 (infoFor "c1") =
      ((OnAgentComplete cfgBoth envOK 5 rSingleEmail (infoFor "c1")).1, []) ∧
    alGet (cleanupOrphaned (some (fun _ => false)) rGroupTwo).1.callbacks "a" = none ∧
    { mkPending "a" "g1" "email" with status := "orphaned" } ∈
      (cleanupOrphaned (some (fun _ => false)) rGroupTwo).1.history := by
  have h := single_completion_is_terminal_and_second_is_noop cfgBoth envOK 5 rSingleEmail
    (infoFor "c1") (mkPending "c1" "" "email") (by decide) (by decide) (by decide)
  have h1 := h.1 (by decide)
  have hg := single_completion_is_terminal_and_second_is_noop cfgBoth envOK 5 rGroupTwo
    (infoFor "a") (mkPending "a" "g1" "email") (by decide) (by decide) (by decide)
  have hg2 := hg.2 (fun _ => false) rfl
  exact ⟨h1.1, h1.2.2.2 envOK 6 (infoFor "c1") rfl, hg2.1, hg2.2.1⟩

/-! ### C8: groups with a call channel always fail at the barrier -/

theorem retireMembers_preserves_absent (now : Nat) (st : String) (ids : List String) :
    ∀ (cbs : List (String × Callback)) (hist : List Callback) (aid : String),
      alGet cbs aid = none →
      alGet (retireMembers now st ids cbs hist).1 aid = none := by
  induction ids with
  | nil => intro cbs hist aid h; simpa [retireMembers] using h
  | cons i rest ih =>
      intro cbs hist aid h
      cases hcb : alGet cbs i with
      | some cb =>
          rw [retireMembers, hcb]
          apply ih
          by_cases hk : aid = i
          · subst hk
            exact alGet_erase_self _ _
          · rw [alGet_erase_ne _ _ _ hk]
            exact h
      | none =>
          rw [retireMembers, hcb]
          exact ih _ _ _ h

theorem retireMembers_erases (now : Nat) (st : String) (ids : List String) :
    ∀ (cbs : List (String × Callback)) (hist : List Callback) (aid : String),
      aid ∈ ids →
      alGet (retireMembers now st ids cbs hist).1 aid = none := by
  induction ids with
  | nil => intro cbs hist aid h; simp at h
  | cons i rest ih =>
      intro cbs hist aid hmem
      by_cases heq : aid = i
      · subst heq
        cases hcb : alGet cbs aid with
        | some cb =>
            rw [retireMembers, hcb]
            exact retireMembers_preserves_absent now st rest _ _ _ (alGet_erase_self _ _)
        | none =>
            rw [retireMembers, hcb]
            exact retireMembers_preserves_absent now st rest _ _ _ hcb
      · have hrest : aid ∈ rest := by
          rcases List.mem_cons.1 hmem with h | h
          · exact absurd h heq
          · exact h
        cases hcb : alGet cbs i with
        | some cb => rw [retireMembers, hcb]; exact ih _ _ _ hrest
        | none => rw [retireMembers, hcb]; exact ih _ _ _ hrest

theorem retireMembers_hist_mem (now : Nat) (st : String) (ids : List String) :
    ∀ (cbs : List (String × Callback)) (hist : List Callback) (c : Callback),
      c ∈ (retireMembers now st ids cbs hist).2 →
      c ∈ hist ∨ c.status = st := by
  induction ids with
  | nil => intro cbs hist c h; exact Or.inl (by simpa [retireMembers] using h)
  | cons i rest ih =>
      intro cbs hist c h
      cases hcb : alGet cbs i with
      | some cb =>
          rw [retireMembers, hcb] at h
          rcases ih _ _ _ h with h1 | h1
          · rcases List.mem_append.1 h1 with h2 | h2
            · exact Or.inl h2
            · right
              simp at h2
              rw [h2]
          · exact Or.inr h1
      | none =>
          rw [retireMembers, hcb] at h
          exact ih _ _ _ h

theorem groupExecErr_isSome_of_call (cfg : Config) (env : DispatchEnv) (method : String)
    (hm : method = "call" ∨ method = "both") :
    (groupExecErr cfg env method).isSome := by
  rcases hm with hm | hm
  · simp [groupExecErr, hm, executeBatchCall]
  · simp only [groupExecErr, hm]
    cases h : executeBatchEmail cfg env <;>
      simp [combineBoth, executeBatchCall, h]

/-- When a group's composed dispatch error is non-nil, `executeGroupCallback`
retires the group as `failed`, removes it from the pending groups, removes
every member's pending callback, and only adds `failed` entries to the
callback history. -/
theorem executeGroupCallback_spec (cfg : Config) (env : DispatchEnv) (now : Nat)
    (s : Registry) (g : CallbackGroup)
    (herr : (groupExecErr cfg env g.method).isSome) :
    ((executeGroupCallback cfg env now s g).1.groupHistory.getLast?).map
        CallbackGroup.status = some "failed" ∧
    alGet (executeGroupCallback cfg env now s g).1.groups g.id = none ∧
    (∀ aid ∈ g.agentIDs,
      alGet (executeGroupCallback cfg env now s g).1.callbacks aid = none) ∧
    (∀ c ∈ (executeGroupCallback cfg env now s g).1.history,
      c ∈ s.history ∨ c.status = "failed") := by
  have hst : (retiredGroup cfg env now g).status = "failed" := by
    simp [retiredGroup, herr]
  refine ⟨?_, ?_, ?_, ?_⟩
  · have hlast : (executeGroupCallback cfg env now s g).1.groupHistory.getLast? =
        some (retiredGroup cfg env now g) := by
      show (if (s.groupHistory ++ [retiredGroup cfg env now g]).length > 50
          then (s.groupHistory ++ [retiredGroup cfg env now g]).drop 1
          else s.groupHistory ++ [retiredGroup cfg env now g]).getLast? =
        some (retiredGroup cfg env now g)
      split
      · next hlen =>
          refine getLast?_trimFront _ _ _ ?_
          simp at hlen
          omega
      · exact List.getLast?_concat _
    rw [hlast, Option.map_some', hst]
  · show alGet (alErase s.groups g.id) g.id = none
    exact alGet_erase_self _ _
  · intro aid hmem
    show alGet (retireMembers now (retiredGroup cfg env now g).status g.agentIDs
        s.callbacks s.history).1 aid = none
    exact retireMembers_erases now _ g.agentIDs s.callbacks s.history aid hmem
  · intro c hc
    have hc' : c ∈ (fun p2 : List Callback =>
        if p2.length > 100 then p2.drop (p2.length - 100) else p2)
        ((retireMembers now (retiredGroup cfg env now g).status g.agentIDs
          s.callbacks s.history).2) := hc
    simp only at hc'
    have hc2 : c ∈ (retireMembers now (retiredGroup cfg env now g).status g.agentIDs
        s.callbacks s.history).2 := by
      split at hc'
      · exact List.drop_subset _ _ hc'
      · exact hc'
    rcases retireMembers_hist_mem now _ g.agentIDs s.callbacks s.history c hc2 with h1 | h1
    · exact Or.inl h1
    · right
      rw [hst] at h1
      exact h1

/-- C8: when `OnAgentComplete` completes the barrier of a group whose
method is `call` or `both`, batch call dispatch unconditionally fails
("batch calls not yet implemented"), so the group is retired to group
history with status `failed`, removed from the pending groups, every
member callback's pending entry is removed, and every history entry added
by this dispatch carries status `failed`. -/
theorem group_with_call_method_fails
    (cfg : Config) (env : DispatchEnv) (now : Nat) (r : Registry)
    (info : CompletionInfo) (cb : Callback) (group : CallbackGroup) (gid : String)
    (hcb : alGet r.callbacks info.agentID = some cb)
    (hgid : cb.groupID = gid) (hne : gid ≠ "")
    (hgrp : alGet r.groups gid = some group) (hid : group.id = gid)
    (hm : group.method = "call" ∨ group.method = "both")
    (hfull : (alInsert group.results info.agentID info).length = group.agentIDs.length) :
    ((OnAgentComplete cfg env now r info).1.groupHistory.getLast?).map
        CallbackGroup.status = some "failed" ∧
    alGet (OnAgentComplete cfg env now r info).1.groups gid = none ∧
    (∀ aid ∈ group.agentIDs,
      alGet (OnAgentComplete cfg env now r info).1.callbacks aid = none) ∧
    (∀ c ∈ (OnAgentComplete cfg env now r info).1.history,
      c ∈ r.history ∨ c.status = "failed") := by
  have herr : (groupExecErr cfg env group.method).isSome :=
    groupExecErr_isSome_of_call cfg env group.method hm
  have hoac : (OnAgentComplete cfg env now r info).1 =
      (executeGroupCallback cfg env now
        { r with groups := alInsert r.groups gid (recordResult group info) }
        (recordResult group info)).1 := by
    simp [OnAgentComplete, hcb, hgid, hne, hgrp, recordResult, hfull]
  rcases executeGroupCallback_spec cfg env now
    { r with groups := alInsert r.groups gid (recordResult group info) }
    (recordResult group info) herr with ⟨h1, h2, h3, h4⟩
  refine ⟨?_, ?_, ?_, ?_⟩
  · rw [hoac]
    exact h1
  · rw [hoac]
    rw [show (recordResult group info).id = gid from hid] at h2
    exact h2
  · intro aid hmem
    rw [hoac]
    exact h3 aid hmem
  · intro c hc
    rw [hoac] at hc
    exact h4 c hc

/-- A registry holding a pending 1-member group with method `call`. -/
def rGroupCall : Registry :=
  { callbacks := [("d1", mkPending "d1" "g2" "call")]
    groups := [("g2", mkGroup "g2" ["d1"] "call")]
    history := [], groupHistory := [] }

theorem group_with_call_method_fails_witness :
    ((OnAgentComplete cfgBoth envOK 5 rGroupCall (infoFor "d1")).1.groupHistory.getLast?).map
        CallbackGroup.status = some "failed" ∧
    alGet (OnAgentComplete cfgBoth envOK 5 rGroupCall (infoFor "d1")).1.groups "g2" = none ∧
    alGet (OnAgentComplete cfgBoth envOK 5 rGroupCall (infoFor "d1")).1.callbacks "d1" = none := by
  have h := group_with_call_method_fails cfgBoth envOK 5 rGroupCall (infoFor "d1")
    (mkPending "d1" "g2" "call") (mkGroup "g2" ["d1"] "call") "g2"
    (by decide) (by decide) (by decide) (by decide) (by decide) (Or.inl (by decide)) (by decide)
  exact ⟨h.1, h.2.1, h.2.2.1 "d1" (by decide)⟩

/-! ### C1: group dispatch fires exactly once, at the barrier -/

@[simp] theorem processAll_nil (cfg : Config) (env : DispatchEnv) (now : Nat) (s : Registry) :
    processAll cfg env now s [] = (s, []) := rfl

theorem processAll_cons (cfg : Config) (env : DispatchEnv) (now : Nat) (s : Registry)
    (i : CompletionInfo) (rest : List CompletionInfo) :
    processAll cfg env now s (i :: rest) =
      ((processAll cfg env now (OnAgentComplete cfg env now s i).1 rest).1,
       (OnAgentComplete cfg env now s i).2 ++
         (processAll cfg env now (OnAgentComplete cfg env now s i).1 rest).2) := rfl

/-- Replace a registry's pending-groups map. -/
def withGroups (r : Registry) (gs : List (String × CallbackGroup)) : Registry :=
  { r with groups := gs }

/-- A completion for a group member that does not yet fill the results map
only records the result and persists. -/
theorem onAgentComplete_group_pending_step
    (cfg : Config) (env : DispatchEnv) (now : Nat) (r : Registry)
    (info : CompletionInfo) (cb : Callback) (group : CallbackGroup)
    (hcb : alGet r.callbacks info.agentID = some cb)
    (hne : cb.groupID ≠ "")
    (hgrp : alGet r.groups cb.groupID = some group)
    (hnotfull : ¬ (recordResult group info).results.length =
      (recordResult group info).agentIDs.length) :
    OnAgentComplete cfg env now r info =
      (withGroups r (alInsert r.groups cb.groupID (recordResult group info)),
       [Event.persist]) := by
  simp [OnAgentComplete, hcb, hne, hgrp, hnotfull, withGroups]

/-- A completion for a group member that fills the results map fires the
group dispatch. -/
theorem onAgentComplete_group_fire_step
    (cfg : Config) (env : DispatchEnv) (now : Nat) (r : Registry)
    (info : CompletionInfo) (cb : Callback) (group : CallbackGroup)
    (hcb : alGet r.callbacks info.agentID = some cb)
    (hne : cb.groupID ≠ "")
    (hgrp : alGet r.groups cb.groupID = some group)
    (hfull : (recordResult group info).results.length =
      (recordResult group info).agentIDs.length) :
    OnAgentComplete cfg env now r info =
      ((executeGroupCallback cfg env now
          (withGroups r (alInsert r.groups cb.groupID (recordResult group info)))
          (recordResult group info)).1,
       (executeGroupCallback cfg env now
          (withGroups r (alInsert r.groups cb.groupID (recordResult group info)))
          (recordResult group info)).2 ++ [Event.persist]) := by
  simp [OnAgentComplete, hcb, hne, hgrp, hfull, withGroups]

/-- One group dispatch emits exactly one `groupDispatch` event for its id. -/
theorem executeGroupCallback_events_count (cfg : Config) (env : DispatchEnv) (now : Nat)
    (s : Registry) (g : CallbackGroup) (gid : String) (hid : g.id = gid) :
    ((executeGroupCallback cfg env now s g).2).count (Event.groupDispatch gid) = 1 := by
  subst hid
  show (Event.groupDispatch g.id ::
      (if g.method = "call" then [Event.batchCallDispatch g.id]
       else if g.method = "email" then [Event.batchEmailDispatch g.id]
       else if g.method = "both" then
         [Event.batchCallDispatch g.id, Event.batchEmailDispatch g.id]
       else [])).count (Event.groupDispatch g.id) = 1
  split_ifs <;> simp [List.count_cons, List.count_nil]

/-- Barrier induction: starting from a state holding the pending group `g`
under `gid`, with `todo` one completion event per not-yet-recorded member
(distinct agent ids, each with a pending callback pointing at `gid`), and
exactly enough events to fill the results map: processing all of `todo`
emits exactly one `groupDispatch gid`, and after any proper prefix no
dispatch has fired and the group is still pending with one recorded result
per processed event. -/
theorem processAll_group_barrier_aux (cfg : Config) (env : DispatchEnv) (now : Nat)
    (gid : String) (h3 : gid ≠ "") :
    ∀ (todo : List CompletionInfo) (s : Registry) (g : CallbackGroup),
      alGet s.groups gid = some g → g.id = gid → g.status = "pending" →
      (∀ i ∈ todo, ∃ cb, alGet s.callbacks i.agentID = some cb ∧ cb.groupID = gid) →
      (todo.map (fun i => i.agentID)).Nodup →
      (∀ i ∈ todo, alGet g.results i.agentID = none) →
      g.results.length + todo.length = g.agentIDs.length →
      todo ≠ [] →
      ((processAll cfg env now s todo).2).count (Event.groupDispatch gid) = 1 ∧
      (∀ pre, pre <+: todo → pre.length < todo.length →
        Event.groupDispatch gid ∉ (processAll cfg env now s pre).2 ∧
        ∃ g2, alGet (processAll cfg env now s pre).1.groups gid = some g2 ∧
          g2.status = "pending" ∧
          g2.results.length = g.results.length + pre.length) := by
  intro todo
  induction todo with
  | nil =>
      intro s g _ _ _ _ _ _ _ h9
      exact absurd rfl h9
  | cons i rest ih =>
      intro s g H1 H2 H4 H5 H6 H7 H8 _
      obtain ⟨cb, hcb, hcbgid⟩ := H5 i (List.mem_cons_self i rest)
      have hne : cb.groupID ≠ "" := by rw [hcbgid]; exact h3
      have hgrp : alGet s.groups cb.groupID = some g := by rw [hcbgid]; exact H1
      have hreslen : (recordResult g i).results.length = g.results.length + 1 := by
        show (alInsert g.results i.agentID i).length = g.results.length + 1
        rw [length_alInsert, H7 i (List.mem_cons_self i rest)]
        simp
      cases rest with
      | nil =>
          have hfull : (recordResult g i).results.length =
              (recordResult g i).agentIDs.length := by
            show _ = g.agentIDs.length
            rw [hreslen]
            simpa using H8
          have hstep := onAgentComplete_group_fire_step cfg env now s i cb g hcb hne hgrp hfull
          constructor
          · rw [processAll_cons, hstep]
            simp only [processAll_nil, List.append_nil]
            rw [List.count_append]
            rw [executeGroupCallback_events_count cfg env now _ _ gid
              (show (recordResult g i).id = gid from H2)]
            simp [List.count_cons]
          · intro pre hpre hlen
            have hprenil : pre = [] := by
              cases pre with
              | nil => rfl
              | cons a t => simp at hlen
            subst hprenil
            refine ⟨by simp, g, by simpa using H1, H4, by simp⟩
      | cons j rest' =>
          have hnotfull : ¬ (recordResult g i).results.length =
              (recordResult g i).agentIDs.length := by
            show ¬ _ = g.agentIDs.length
            rw [hreslen]
            simp only [List.length_cons] at H8
            omega
          have hstep := onAgentComplete_group_pending_step cfg env now s i cb g
            hcb hne hgrp hnotfull
          have hmemtl : ∀ i2 ∈ j :: rest',
              ∃ cb2, alGet (withGroups s (alInsert s.groups cb.groupID
                  (recordResult g i))).callbacks i2.agentID = some cb2 ∧
                cb2.groupID = gid := by
            intro i2 hi2
            exact H5 i2 (List.mem_cons_of_mem _ hi2)
          have hres2 : ∀ i2 ∈ j :: rest',
              alGet (recordResult g i).results i2.agentID = none := by
            intro i2 hi2
            show alGet (alInsert g.results i.agentID i) i2.agentID = none
            have hneq : i2.agentID ≠ i.agentID := by
              intro he
              have := H6
              simp only [List.map_cons, List.nodup_cons] at this
              exact this.1 (by
                rw [← he]
                exact List.mem_map.2 ⟨i2, hi2, rfl⟩)
            rw [alGet_insert_ne _ _ _ _ hneq]
            exact H7 i2 (List.mem_cons_of_mem _ hi2)
          have hlen2 : (recordResult g i).results.length + (j :: rest').length =
              (recordResult g i).agentIDs.length := by
            show _ + _ = g.agentIDs.length
            rw [hreslen]
            simp only [List.length_cons] at H8 ⊢
            omega
          have hG1 : alGet (withGroups s (alInsert s.groups cb.groupID
              (recordResult g i))).groups gid = some (recordResult g i) := by
            show alGet (alInsert s.groups cb.groupID (recordResult g i)) gid =
              some (recordResult g i)
            rw [hcbgid]
            exact alGet_insert_self _ _ _
          have hnodup2 : ((j :: rest').map (fun i2 => i2.agentID)).Nodup := by
            have h6' : ((i :: j :: rest').map (fun i2 => i2.agentID)).Nodup := H6
            rw [List.map_cons] at h6'
            exact h6'.of_cons
          obtain ⟨ihA, ihB⟩ := ih
            (withGroups s (alInsert s.groups cb.groupID (recordResult g i)))
            (recordResult g i) hG1
            (show (recordResult g i).id = gid from H2)
            (show (recordResult g i).status = "pending" from H4)
            hmemtl hnodup2 hres2 hlen2 (by simp)
          constructor
          · rw [processAll_cons, hstep]
            simp only []
            rw [List.count_append]
            rw [ihA]
            simp [List.count_cons]
          · intro pre hpre hlen
            rcases List.prefix_cons_iff.1 hpre with hpre0 | ⟨t, hpret, htpre⟩
            · subst hpre0
              refine ⟨by simp, g, by simpa using H1, H4, by simp⟩
            · subst hpret
              have hlent : t.length < (j :: rest').length := by
                simpa using hlen
              obtain ⟨hBmem, g2, hBget, hBst, hBlen⟩ := ihB t htpre hlent
              refine ⟨?_, g2, ?_, hBst, ?_⟩
              · rw [processAll_cons, hstep]
                simp only [List.mem_append]
                rintro (hmem | hmem)
                · simp at hmem
                · exact hBmem hmem
              · rw [processAll_cons, hstep]
                exact hBget
              · rw [hBlen, hreslen]
                simp
                omega

/-- C1: for a pending group with `N ≥ 1` members and an empty results map,
feeding one completion event per member through `OnAgentComplete`, in any
order, fires the group dispatch exactly once, and only at the final event:
after every proper prefix no dispatch has fired and the group is still
pending with exactly one recorded result per completed member. -/
theorem group_dispatch_fires_exactly_once_at_barrier
    (cfg : Config) (env : DispatchEnv) (now : Nat) (r : Registry)
    (gid : String) (g : CallbackGroup) (infos : List CompletionInfo)
    (h1 : alGet r.groups gid = some g) (h2 : g.id = gid) (h3 : gid ≠ "")
    (h4 : g.status = "pending") (h5 : g.results = [])
    (h6 : (infos.map (fun i => i.agentID)).Perm g.agentIDs)
    (h7 : (infos.map (fun i => i.agentID)).Nodup)
    (h8 : ∀ i ∈ infos, ∃ cb, alGet r.callbacks i.agentID = some cb ∧ cb.groupID = gid)
    (h9 : infos ≠ []) :
    ((processAll cfg env now r infos).2).count (Event.groupDispatch gid) = 1 ∧
    (∀ pre, pre <+: infos → pre.length < infos.length →
      Event.groupDispatch gid ∉ (processAll cfg env now r pre).2 ∧
      ∃ g2, alGet (processAll cfg env now r pre).1.groups gid = some g2 ∧
        g2.status = "pending" ∧ g2.results.length = pre.length) := by
  have hlen : g.results.length + infos.length = g.agentIDs.length := by
    rw [h5]
    simpa using h6.length_eq
  have hres : ∀ i ∈ infos, alGet g.results i.agentID = none := by
    intro i _
    rw [h5]
    rfl
  obtain ⟨hA, hB⟩ := processAll_group_barrier_aux cfg env now gid h3 infos r g
    h1 h2 h4 h8 h7 hres hlen h9
  refine ⟨hA, ?_⟩
  intro pre hpre hlenp
  obtain ⟨hm, g2, hget, hst, hglen⟩ := hB pre hpre hlenp
  refine ⟨hm, g2, hget, hst, ?_⟩
  rw [hglen, h5]
  simp

/-- A registry holding a pending 2-member group `"g3"` and its members. -/
def rGroupPair : Registry :=
  { callbacks := [("e1", mkPending "e1" "g3" "email"), ("e2", mkPending "e2" "g3" "email")]
    groups := [("g3", mkGroup "g3" ["e1", "e2"] "email")]
    history := [], groupHistory := [] }

theorem group_dispatch_fires_exactly_once_at_barrier_witness :
    ((processAll cfgBoth envOK 5 rGroupPair
        [infoFor "e2", infoFor "e1"]).2).count (Event.groupDispatch "g3") = 1 ∧
    Event.groupDispatch "g3" ∉ (processAll cfgBoth envOK 5 rGroupPair
        [infoFor "e2"]).2 := by
  have h := group_dispatch_fires_exactly_once_at_barrier cfgBoth envOK 5 rGroupPair
    "g3" (mkGroup "g3" ["e1", "e2"] "email") [infoFor "e2", infoFor "e1"]
    (by decide) (by decide) (by decide) (by decide) (by decide) (by decide) (by decide)
    (by
      intro i hi
      rcases List.mem_cons.1 hi with h1 | h1
      · exact ⟨mkPending "e2" "g3" "email", by rw [h1]; decide, by decide⟩
      · rcases List.mem_cons.1 h1 with h2 | h2
        · exact ⟨mkPending "e1" "g3" "email", by rw [h2]; decide, by decide⟩
        · simp at h2)
    (by decide)
  exact ⟨h.1, (h.2 [infoFor "e2"] (by simp) (by simp)).1⟩

/-! ### C10: an empty batch group is created but never dispatched -/

theorem mem_alInsert {α : Type} {m : List (String × α)} {k : String} {v : α}
    {p : String × α} (h : p ∈ alInsert m k v) : p ∈ m ∨ p = (k, v) := by
  induction m with
  | nil => simp [alInsert] at h; exact Or.inr h
  | cons q rest ih =>
      by_cases hq : q.1 = k
      · rw [alInsert, if_pos hq] at h
        rcases List.mem_cons.1 h with h1 | h1
        · exact Or.inr h1
        · exact Or.inl (List.mem_cons_of_mem _ h1)
      · rw [alInsert, if_neg hq] at h
        rcases List.mem_cons.1 h with h1 | h1
        · exact Or.inl (h1 ▸ List.mem_cons_self _ _)
        · rcases ih h1 with h2 | h2
          · exact Or.inl (List.mem_cons_of_mem _ h2)
          · exact Or.inr h2

theorem mem_alErase_sub {α : Type} {m : List (String × α)} {k : String}
    {p : String × α} (h : p ∈ alErase m k) : p ∈ m :=
  List.mem_of_mem_filter h

theorem retireMembers_callbacks_sub (now : Nat) (st : String) (ids : List String) :
    ∀ (cbs : List (String × Callback)) (hist : List Callback) (p : String × Callback),
      p ∈ (retireMembers now st ids cbs hist).1 → p ∈ cbs := by
  induction ids with
  | nil => intro cbs hist p h; simpa [retireMembers] using h
  | cons i rest ih =>
      intro cbs hist p h
      cases hcb : alGet cbs i with
      | some cb =>
          rw [retireMembers, hcb] at h
          exact mem_alErase_sub (ih _ _ _ h)
      | none =>
          rw [retireMembers, hcb] at h
          exact ih _ _ _ h

/-- The callbacks created by the `RegisterBatch` member loop: anything in
the folded map is either an original entry or one of the new group-tagged
callbacks. -/
theorem mem_registerBatch_foldl (f : AgentInfo → Callback) (agents : List AgentInfo) :
    ∀ (m : List (String × Callback)) (p : String × Callback),
      p ∈ agents.foldl (fun m2 agent => alInsert m2 agent.id (f agent)) m →
      p ∈ m ∨ ∃ agent, agent ∈ agents ∧ p = (agent.id, f agent) := by
  induction agents with
  | nil => intro m p h; exact Or.inl (by simpa using h)
  | cons a rest ih =>
      intro m p h
      rw [List.foldl_cons] at h
      rcases ih _ _ h with h1 | h1
      · rcases mem_alInsert h1 with h2 | h2
        · exact Or.inl h2
        · exact Or.inr ⟨a, List.mem_cons_self _ _, h2⟩
      · obtain ⟨agent, hmem, hp⟩ := h1
        exact Or.inr ⟨agent, List.mem_cons_of_mem _ hmem, hp⟩

/-- A registry operation, as invoked through the registry's public surface
(`cleanup` stands for the `cleanupOrphaned` pass that installing an agent
validator triggers). -/
inductive Op where
  | register (agentID agentName taskSummary projectName method phone emailAddr
      customerName : String)
  | registerBatch (agents : List AgentInfo) (method phone emailAddr customerName : String)
  | onAgentComplete (info : CompletionInfo)
  | cancel (agentID : String)
  | cleanup (agentValidator : Option (String → Bool))

/-- Run one registry operation, discarding its return value. -/
def applyOp (cfg : Config) (env : DispatchEnv) (now : Nat) (persona : String)
    (r : Registry) : Op → Registry
  | .register agentID agentName taskSummary projectName method phone emailAddr
      customerName =>
      (Register cfg now persona r agentID agentName taskSummary projectName method
        phone emailAddr customerName).1
  | .registerBatch agents method phone emailAddr customerName =>
      (RegisterBatch cfg now persona r agents method phone emailAddr customerName).1
  | .onAgentComplete info => (OnAgentComplete cfg env now r info).1
  | .cancel agentID => (Cancel r agentID).1
  | .cleanup agentValidator => (cleanupOrphaned agentValidator r).1

/-- The group `gid` is pending with no member agent ids, no pending callback
points at it, and the groups map is well-formed (each value's id is its
key). -/
def untouchedEmptyGroup (gid : String) (r : Registry) : Prop :=
  gid ≠ "" ∧
  (∃ g, alGet r.groups gid = some g ∧ g.agentIDs = [] ∧ g.status = "pending") ∧
  (∀ p ∈ r.callbacks, p.2.groupID ≠ gid) ∧
  (∀ p ∈ r.groups, p.2.id = p.1)

/-- `RegisterBatch` run at time `now` creates the group id `grp-now`; an
operation is fresh for `gid` when it cannot collide with it. -/
def opFresh (gid : String) (now : Nat) : Op → Prop
  | .registerBatch _ _ _ _ _ => ("grp-" ++ toString now) ≠ gid
  | _ => True

/-- One registry operation preserves `untouchedEmptyGroup`. -/
theorem untouchedEmptyGroup_step (cfg : Config) (env : DispatchEnv) (now : Nat)
    (persona : String) (gid : String) (r : Registry) (op : Op)
    (hinv : untouchedEmptyGroup gid r) (hfresh : opFresh gid now op) :
    untouchedEmptyGroup gid (applyOp cfg env now persona r op) := by
  obtain ⟨hgne, ⟨g0, hg0, hg0ids, hg0st⟩, hnocb, hwf⟩ := hinv
  cases op with
  | register agentID agentName taskSummary projectName method phone emailAddr
      customerName =>
      show untouchedEmptyGroup gid (Register cfg now persona r agentID agentName
        taskSummary projectName method phone emailAddr customerName).1
      unfold Register
      split_ifs
      case neg =>
        refine ⟨hgne, ⟨g0, hg0, hg0ids, hg0st⟩, ?_, hwf⟩
        intro p hp
        rcases mem_alInsert hp with h1 | h1
        · exact hnocb p h1
        · rw [h1]
          exact fun he => hgne he.symm
      all_goals exact ⟨hgne, ⟨g0, hg0, hg0ids, hg0st⟩, hnocb, hwf⟩
  | registerBatch agents method phone emailAddr customerName =>
      show untouchedEmptyGroup gid (RegisterBatch cfg now persona r agents method
        phone emailAddr customerName).1
      have hfr : ("grp-" ++ toString now) ≠ gid := hfresh
      unfold RegisterBatch
      split_ifs
      case neg =>
        refine ⟨hgne, ⟨g0, ?_, hg0ids, hg0st⟩, ?_, ?_⟩
        · show alGet (alInsert r.groups ("grp-" ++ toString now) _) gid = some g0
          rw [alGet_insert_ne _ _ _ _ (fun he => hfr he.symm)]
          exact hg0
        · intro p hp
          rcases mem_registerBatch_foldl _ agents r.callbacks p hp with h1 | h1
          · exact hnocb p h1
          · obtain ⟨agent, _, hpv⟩ := h1
            rw [hpv]
            exact hfr
        · intro p hp
          rcases mem_alInsert hp with h1 | h1
          · exact hwf p h1
          · rw [h1]
      all_goals exact ⟨hgne, ⟨g0, hg0, hg0ids, hg0st⟩, hnocb, hwf⟩
  | onAgentComplete info =>
      show untouchedEmptyGroup gid (OnAgentComplete cfg env now r info).1
      cases hcb : alGet r.callbacks info.agentID with
      | none =>
          rw [onAgentComplete_no_callback cfg env now r info hcb]
          exact ⟨hgne, ⟨g0, hg0, hg0ids, hg0st⟩, hnocb, hwf⟩
      | some cb =>
          have hcbne : cb.groupID ≠ gid := hnocb _ (alGet_mem hcb)
          by_cases hg : cb.groupID ≠ ""
          · cases hgrp : alGet r.groups cb.groupID with
            | none =>
                rw [onAgentComplete_missing_group_is_noop cfg env now r info cb hcb hg hgrp]
                exact ⟨hgne, ⟨g0, hg0, hg0ids, hg0st⟩, hnocb, hwf⟩
            | some group =>
                have hgidkey : group.id = cb.groupID := hwf _ (alGet_mem hgrp)
                by_cases hfull : (recordResult group info).results.length =
                    (recordResult group info).agentIDs.length
                · rw [onAgentComplete_group_fire_step cfg env now r info cb group
                    hcb hg hgrp hfull]
                  refine ⟨hgne, ⟨g0, ?_, hg0ids, hg0st⟩, ?_, ?_⟩
                  · show alGet (alErase (alInsert r.groups cb.groupID
                        (recordResult group info)) (recordResult group info).id) gid =
                      some g0
                    rw [show (recordResult group info).id = cb.groupID from hgidkey]
                    rw [alGet_erase_ne _ _ _ (Ne.symm hcbne), alGet_insert_ne _ _ _ _ (Ne.symm hcbne)]
                    exact hg0
                  · intro p hp
                    exact hnocb p (retireMembers_callbacks_sub now _ _ _ _ p hp)
                  · intro p hp
                    rcases mem_alInsert (mem_alErase_sub hp) with h1 | h1
                    · exact hwf p h1
                    · rw [h1]
                      exact hgidkey
                · rw [onAgentComplete_group_pending_step cfg env now r info cb group
                    hcb hg hgrp hfull]
                  refine ⟨hgne, ⟨g0, ?_, hg0ids, hg0st⟩, hnocb, ?_⟩
                  · show alGet (alInsert r.groups cb.groupID (recordResult group info))
                      gid = some g0
                    rw [alGet_insert_ne _ _ _ _ (Ne.symm hcbne)]
                    exact hg0
                  · intro p hp
                    rcases mem_alInsert hp with h1 | h1
                    · exact hwf p h1
                    · rw [h1]
                      exact hgidkey
          · have hsingle : (OnAgentComplete cfg env now r info).1 =
                (executeCallback cfg env now r cb info).1 := by
              simp [OnAgentComplete, hcb, hg]
            rw [hsingle]
            refine ⟨hgne, ⟨g0, hg0, hg0ids, hg0st⟩, ?_, hwf⟩
            intro p hp
            exact hnocb p (mem_alErase_sub hp)
  | cancel agentID =>
      show untouchedEmptyGroup gid (Cancel r agentID).1
      unfold Cancel
      split_ifs
      · refine ⟨hgne, ⟨g0, hg0, hg0ids, hg0st⟩, ?_, hwf⟩
        intro p hp
        exact hnocb p (mem_alErase_sub hp)
      · exact ⟨hgne, ⟨g0, hg0, hg0ids, hg0st⟩, hnocb, hwf⟩
  | cleanup agentValidator =>
      show untouchedEmptyGroup gid (cleanupOrphaned agentValidator r).1
      cases agentValidator with
      | none => exact ⟨hgne, ⟨g0, hg0, hg0ids, hg0st⟩, hnocb, hwf⟩
      | some v =>
          refine ⟨hgne, ⟨g0, hg0, hg0ids, hg0st⟩, ?_, hwf⟩
          intro p hp
          exact hnocb p (List.mem_of_mem_filter hp)

/-- Run a list of timestamped registry operations in order. -/
def applyOps (cfg : Config) (env : DispatchEnv) (persona : String) :
    Registry → List (Nat × Op) → Registry
  | r, [] => r
  | r, q :: rest => applyOps cfg env persona (applyOp cfg env q.1 persona r q.2) rest

/-- C10: `RegisterBatch` with an empty member list succeeds and creates a
pending group with zero member agent ids; that group satisfies
`untouchedEmptyGroup`, and every registry operation (with fresh batch
group ids), and hence every sequence of them, preserves that property: the
group stays in the pending groups map forever and its dispatch never
fires, because the barrier check runs only inside `OnAgentComplete` for a
member callback and no callback ever points at the group. -/
theorem emptyBatch_group_never_dispatched :
    (∀ (cfg : Config) (now : Nat) (persona : String) (r : Registry)
        (method phone emailAddr customerName : String),
      ¬ ((method = "call" ∨ method = "both") ∧ phone = "") →
      ¬ ((method = "email" ∨ method = "both") ∧ emailAddr = "") →
      ("grp-" ++ toString now) ≠ "" →
      (∀ p ∈ r.callbacks, p.2.groupID ≠ ("grp-" ++ toString now)) →
      (∀ p ∈ r.groups, p.2.id = p.1) →
      (RegisterBatch cfg now persona r [] method phone emailAddr customerName).2.isOk =
        true ∧
      untouchedEmptyGroup ("grp-" ++ toString now)
        (RegisterBatch cfg now persona r [] method phone emailAddr customerName).1) ∧
    (∀ (cfg : Config) (env : DispatchEnv) (now : Nat) (persona gid : String)
        (r : Registry) (op : Op),
      untouchedEmptyGroup gid r → opFresh gid now op →
      untouchedEmptyGroup gid (applyOp cfg env now persona r op)) ∧
    (∀ (cfg : Config) (env : DispatchEnv) (persona gid : String) (r : Registry)
        (ops : List (Nat × Op)),
      untouchedEmptyGroup gid r → (∀ q ∈ ops, opFresh gid q.1 q.2) →
      untouchedEmptyGroup gid (applyOps cfg env persona r ops)) := by
  refine ⟨?_, ?_, ?_⟩
  · intro cfg now persona r method phone emailAddr customerName h1 h2 hne hnocb hwf
    unfold RegisterBatch
    rw [if_neg h1, if_neg h2]
    refine ⟨rfl, hne, ⟨_, alGet_insert_self _ _ _, rfl, rfl⟩, ?_, ?_⟩
    · intro p hp
      exact hnocb p (by simpa using hp)
    · intro p hp
      rcases mem_alInsert hp with hq | hq
      · exact hwf p hq
      · rw [hq]
  · intro cfg env now persona gid r op hinv hfresh
    exact untouchedEmptyGroup_step cfg env now persona gid r op hinv hfresh
  · intro cfg env persona gid r ops
    induction ops generalizing r with
    | nil => intro hinv _; exact hinv
    | cons q rest ih =>
        intro hinv hfresh
        exact ih _ (untouchedEmptyGroup_step cfg env q.1 persona gid r q.2 hinv
          (hfresh q (List.mem_cons_self _ _)))
          (fun q2 hq2 => hfresh q2 (List.mem_cons_of_mem _ hq2))

theorem emptyBatch_group_never_dispatched_witness :
    (RegisterBatch cfgBoth 1 "Tony" emptyRegistry [] "email" "" "x@y.com" "Cust").2.isOk =
      true ∧
    untouchedEmptyGroup "grp-1"
      (applyOp cfgBoth envOK 2 "Tony"
        (RegisterBatch cfgBoth 1 "Tony" emptyRegistry [] "email" "" "x@y.com" "Cust").1
        (Op.onAgentComplete (infoFor "a1"))) := by
  have hcreate := emptyBatch_group_never_dispatched.1 cfgBoth 1 "Tony" emptyRegistry
    "email" "" "x@y.com" "Cust" (by simp) (by simp) (by decide)
    (by intro p hp; simp [emptyRegistry] at hp) (by intro p hp; simp [emptyRegistry] at hp)
  have hstep := emptyBatch_group_never_dispatched.2.1 cfgBoth envOK 2 "Tony" "grp-1"
    (RegisterBatch cfgBoth 1 "Tony" emptyRegistry [] "email" "" "x@y.com" "Cust").1
    (Op.onAgentComplete (infoFor "a1")) hcreate.2 trivial
  exact ⟨hcreate.1, hstep⟩

/-! ### C7: persist followed by load reproduces the registry state

`persist` marshals `{callbacks, groups, history, group_history}` as one
JSON document; `NewRegistry` over the same base directory reads that file
back in `load`. The document is modelled as a JSON tree; string fields
tagged `omitempty` are omitted when empty and decode to the zero value
`""`, mirroring `encoding/json`. -/

/-- A JSON value, as far as the persisted record needs. -/
inductive Json where
  | str (s : String)
  | num (n : Nat)
  | arr (xs : List Json)
  | obj (fields : List (String × Json))

/-- Object field lookup. -/
def jGet : Json → String → Option Json
  | .obj fs, k => alGet fs k
  | _, _ => none

/-- Unmarshal a string field; a missing field yields Go's zero value. -/
def getStr (j : Json) (k : String) : String :=
  match jGet j k with
  | some (.str s) => s
  | _ => ""

/-- Unmarshal an integer (Unix-nanosecond) field. -/
def getNat (j : Json) (k : String) : Nat :=
  match jGet j k with
  | some (.num n) => n
  | _ => 0

/-- Unmarshal a string-array field. -/
def getStrList (j : Json) (k : String) : List String :=
  match jGet j k with
  | some (.arr xs) => xs.map (fun x => match x with | .str s => s | _ => "")
  | _ => []

/-- Marshal a string field tagged `omitempty`. -/
def omitemptyStr (k s : String) : List (String × Json) :=
  if s = "" then [] else [(k, .str s)]

/-- Marshal a `CompletionInfo` with its Go json tags. -/
def encodeCompletionInfo (info : CompletionInfo) : Json :=
  .obj ([("agent_id", .str info.agentID), ("agent_name", .str info.agentName),
         ("result", .str info.result), ("project_name", .str info.projectName)]
        ++ omitemptyStr "error" info.error)

/-- Unmarshal a `CompletionInfo`. -/
def decodeCompletionInfo (j : Json) : CompletionInfo :=
  { agentID := getStr j "agent_id", agentName := getStr j "agent_name"
    result := getStr j "result", projectName := getStr j "project_name"
    error := getStr j "error" }

/-- Marshal a `Callback` with its Go json tags. -/
def encodeCallback (cb : Callback) : Json :=
  .obj ([("id", .str cb.id), ("agent_id", .str cb.agentID),
         ("agent_name", .str cb.agentName), ("task_summary", .str cb.taskSummary),
         ("project_name", .str cb.projectName), ("method", .str cb.method)]
        ++ omitemptyStr "customer_phone" cb.customerPhone
        ++ omitemptyStr "customer_email" cb.customerEmail
        ++ omitemptyStr "customer_name" cb.customerName
        ++ [("persona_name", .str cb.personaName), ("requested_at", .num cb.requestedAt),
            ("completed_at", .num cb.completedAt), ("status", .str cb.status)]
        ++ omitemptyStr "error" cb.error
        ++ omitemptyStr "group_id" cb.groupID)

/-- Unmarshal a `Callback`. -/
def decodeCallback (j : Json) : Callback :=
  { id := getStr j "id", agentID := getStr j "agent_id"
    agentName := getStr j "agent_name", taskSummary := getStr j "task_summary"
    projectName := getStr j "project_name", method := getStr j "method"
    customerPhone := getStr j "customer_phone", customerEmail := getStr j "customer_email"
    customerName := getStr j "customer_name", personaName := getStr j "persona_name"
    requestedAt := getNat j "requested_at", completedAt := getNat j "completed_at"
    status := getStr j "status", error := getStr j "error"
    groupID := getStr j "group_id" }

/-- Unmarshal the `results` map of a group. -/
def getResults (j : Json) (k : String) : List (String × CompletionInfo) :=
  match jGet j k with
  | some (.obj fs) => fs.map (fun p => (p.1, decodeCompletionInfo p.2))
  | _ => []

/-- Marshal a `CallbackGroup` with its Go json tags. -/
def encodeGroup (g : CallbackGroup) : Json :=
  .obj ([("id", .str g.id), ("agent_ids", .arr (g.agentIDs.map Json.str)),
         ("results", .obj (g.results.map (fun p => (p.1, encodeCompletionInfo p.2)))),
         ("method", .str g.method)]
        ++ omitemptyStr "customer_phone" g.customerPhone
        ++ omitemptyStr "customer_email" g.customerEmail
        ++ omitemptyStr "customer_name" g.customerName
        ++ [("persona_name", .str g.personaName), ("requested_at", .num g.requestedAt),
            ("completed_at", .num g.completedAt), ("status", .str g.status)]
        ++ omitemptyStr "error" g.error)

/-- Unmarshal a `CallbackGroup`. -/
def decodeGroup (j : Json) : CallbackGroup :=
  { id := getStr j "id", agentIDs := getStrList j "agent_ids"
    results := getResults j "results", method := getStr j "method"
    customerPhone := getStr j "customer_phone", customerEmail := getStr j "customer_email"
    customerName := getStr j "customer_name", personaName := getStr j "persona_name"
    requestedAt := getNat j "requested_at", completedAt := getNat j "completed_at"
    status := getStr j "status", error := getStr j "error" }

/-- `Registry.persist`: the single JSON document written to
`tron.work/callbacks.json`. -/
def persistDoc (r : Registry) : Json :=
  .obj [("callbacks", .obj (r.callbacks.map (fun p => (p.1, encodeCallback p.2)))),
        ("groups", .obj (r.groups.map (fun p => (p.1, encodeGroup p.2)))),
        ("history", .arr (r.history.map encodeCallback)),
        ("group_history", .arr (r.groupHistory.map encodeGroup))]

/-- `Registry.load`: replace each component for which the document parses a
non-nil value; an absent or unparsable file (`none`) leaves the registry
as constructed. -/
def loadDoc (r : Registry) : Option Json → Registry
  | none => r
  | some doc =>
    { callbacks :=
        match jGet doc "callbacks" with
        | some (.obj fs) => fs.map (fun p => (p.1, decodeCallback p.2))
        | _ => r.callbacks
      groups :=
        match jGet doc "groups" with
        | some (.obj fs) => fs.map (fun p => (p.1, decodeGroup p.2))
        | _ => r.groups
      history :=
        match jGet doc "history" with
        | some (.arr xs) => xs.map decodeCallback
        | _ => r.history
      groupHistory :=
        match jGet doc "group_history" with
        | some (.arr xs) => xs.map decodeGroup
        | _ => r.groupHistory }

/-- `NewRegistry` over a base directory whose persisted file holds `file`. -/
def NewRegistryFrom (file : Option Json) : Registry :=
  loadDoc emptyRegistry file

theorem decode_encode_completionInfo (i : CompletionInfo) :
    decodeCompletionInfo (encodeCompletionInfo i) = i := by
  cases i with
  | mk agentID agentName result projectName error =>
      by_cases he : error = "" <;>
        simp [decodeCompletionInfo, encodeCompletionInfo, omitemptyStr, getStr, jGet,
          alGet, he]

theorem decode_encode_callback (cb : Callback) :
    decodeCallback (encodeCallback cb) = cb := by
  cases cb with
  | mk id agentID agentName taskSummary projectName method customerPhone customerEmail
      customerName personaName requestedAt completedAt status error groupID =>
      by_cases h1 : customerPhone = "" <;>
      by_cases h2 : customerEmail = "" <;>
      by_cases h3 : customerName = "" <;>
      by_cases h4 : error = "" <;>
      by_cases h5 : groupID = "" <;>
        simp [decodeCallback, encodeCallback, omitemptyStr, getStr, getNat, jGet,
          alGet, h1, h2, h3, h4, h5]

theorem results_roundtrip (l : List (String × CompletionInfo)) :
    (l.map (fun p => (p.1, encodeCompletionInfo p.2))).map
      (fun p => (p.1, decodeCompletionInfo p.2)) = l := by
  induction l with
  | nil => rfl
  | cons p rest ih => simp [decode_encode_completionInfo, ih]

theorem agentIDs_roundtrip (l : List String) :
    (l.map Json.str).map (fun x => match x with | .str s => s | _ => "") = l := by
  induction l with
  | nil => rfl
  | cons a rest ih => simp [ih]

theorem decode_encode_group (g : CallbackGroup) :
    decodeGroup (encodeGroup g) = g := by
  cases g with
  | mk id agentIDs results method customerPhone customerEmail customerName
      personaName requestedAt completedAt status error =>
      by_cases h1 : customerPhone = "" <;>
      by_cases h2 : customerEmail = "" <;>
      by_cases h3 : customerName = "" <;>
      by_cases h4 : error = ""
      all_goals
        simp [decodeGroup, encodeGroup, omitemptyStr, getStr, getNat, getStrList,
          getResults, jGet, alGet, h1, h2, h3, h4]
        refine ⟨?_, ?_⟩
        · rw [← List.map_map]
          exact agentIDs_roundtrip agentIDs
        · rw [← List.map_map]
          exact results_roundtrip results

theorem callbacks_map_roundtrip (l : List (String × Callback)) :
    (l.map (fun p => (p.1, encodeCallback p.2))).map
      (fun p => (p.1, decodeCallback p.2)) = l := by
  induction l with
  | nil => rfl
  | cons p rest ih => simp [decode_encode_callback, ih]

theorem groups_map_roundtrip (l : List (String × CallbackGroup)) :
    (l.map (fun p => (p.1, encodeGroup p.2))).map
      (fun p => (p.1, decodeGroup p.2)) = l := by
  induction l with
  | nil => rfl
  | cons p rest ih => simp [decode_encode_group, ih]

theorem history_roundtrip (l : List Callback) :
    (l.map encodeCallback).map decodeCallback = l := by
  induction l with
  | nil => rfl
  | cons c rest ih => simp [decode_encode_callback, ih]

theorem groupHistory_roundtrip (l : List CallbackGroup) :
    (l.map encodeGroup).map decodeGroup = l := by
  induction l with
  | nil => rfl
  | cons c rest ih => simp [decode_encode_group, ih]

/-- C7: constructing a new registry over the same base directory as a
registry that just persisted reproduces identical pending callbacks,
pending groups, callback history, and group history — persist followed by
load is the identity on registry state. -/
theorem new_registry_after_persist_is_identity (r : Registry) :
    NewRegistryFrom (some (persistDoc r)) = r := by
  cases r with
  | mk callbacks groups history groupHistory =>
      simp [NewRegistryFrom, loadDoc, persistDoc, jGet, alGet, emptyRegistry]
      refine ⟨?_, ?_, ?_, ?_⟩
      · rw [← List.map_map]
        exact callbacks_map_roundtrip callbacks
      · rw [← List.map_map]
        exact groups_map_roundtrip groups
      · rw [← List.map_map]
        exact history_roundtrip history
      · rw [← List.map_map]
        exact groupHistory_roundtrip groupHistory

end Tron
